import Mathlib

/-!
# OctoFit tracker front end: Leaderboard, Teams and Workouts components

A shallow embedding of `frontend/src/components/Leaderboard.js`, `Teams.js` and
`Workouts.js`.  The three files are copies of one another up to the endpoint path,
the failure message and the fields read by the filter callback, so the embedding
is indexed by a `Component`.

* JavaScript values that `response.json()` can yield are the type `JSValue`;
  `undefined` (the result of reading a missing property) is `none : Option JSValue`.
* A JavaScript string is a Lean `String`, a sequence of Unicode scalar values; on such
  strings a search by UTF-16 code units and a search by characters agree.
* A `throw` is the `.error` case of `Except JSError _`.
* The `useState` cells of a component are the record `Hooks`; a setter call is a
  record update, in program order.
* A `try / catch / finally` statement is run by `tryCatchFinally`, which follows
  the completion-record semantics of ECMAScript.
-/

namespace OctoFit

/-! ## JavaScript values and errors -/

/-- A thrown JavaScript error, identified by its `name` property. -/
structure JSError where
  name : String
deriving DecidableEq, Repr

/-- Error thrown by a failed property read or a call of a non-function. -/
def typeError : JSError := ⟨"TypeError"⟩

/-- Rejection reason of `fetch` / `response.json()` once the signal is aborted. -/
def abortError : JSError := ⟨"AbortError"⟩

/-- Rejection reason of `response.json()` on a body that is not JSON. -/
def syntaxError : JSError := ⟨"SyntaxError"⟩

/-- Values produced by `JSON.parse`.  A number carries the text that
`Number.prototype.toString` yields for it; an object carries its own enumerable
properties, each name once. -/
inductive JSValue where
  | null
  | bool (b : Bool)
  | number (shown : String)
  | string (s : String)
  | array (items : List JSValue)
  | object (fields : List (String × JSValue))
deriving Repr

instance : Inhabited JSValue := ⟨JSValue.null⟩

/-- The three components of the front end. -/
inductive Component where
  | leaderboard
  | teams
  | workouts
deriving DecidableEq, Repr

/-! ## String built-ins used by the filter -/

/-- Code points of the ECMAScript WhiteSpace and LineTerminator productions, which
are the ones `String.prototype.trim` removes. -/
def isWhiteSpace (c : Char) : Bool :=
  let n := c.toNat
  n == 0x09 || n == 0x0A || n == 0x0B || n == 0x0C || n == 0x0D || n == 0x20 ||
  n == 0xA0 || n == 0x1680 || (0x2000 ≤ n && n ≤ 0x200A) || n == 0x2028 ||
  n == 0x2029 || n == 0x202F || n == 0x205F || n == 0x3000 || n == 0xFEFF

/-- Drop the leading white space of a character sequence. -/
def trimStart (cs : List Char) : List Char :=
  cs.dropWhile isWhiteSpace

/-- Drop leading and trailing white space of a character sequence. -/
def trimChars (cs : List Char) : List Char :=
  (trimStart (trimStart cs).reverse).reverse

/-- The method `String.prototype.trim`. -/
def trim (s : String) : String :=
  ⟨trimChars s.data⟩

/-- The case tables of the engine.  `String.prototype.toLowerCase` follows the Unicode
Default Case Conversion algorithm: every character is replaced by its lower-case form,
one or more characters long, chosen from the tables and, for the final sigma, from the
characters before and after it.  `lowerAt before ch after` is that form.  The tables are
no part of the repository, so they are a parameter of everything that lower-cases. -/
structure CaseMapping where
  lowerAt : List Char → Char → List Char → List Char

/-- Lower-case the characters `rest` that follow the characters `before`. -/
def lowerFrom (m : CaseMapping) : List Char → List Char → List Char
  | _, [] => []
  | before, ch :: rest => m.lowerAt before ch rest ++ lowerFrom m (before ++ [ch]) rest

/-- The method `String.prototype.toLowerCase`. -/
def toLowerCase (m : CaseMapping) (s : String) : String :=
  ⟨lowerFrom m [] s.data⟩

/-- Does `hay` begin with `needle`? -/
def startsWith : List Char → List Char → Bool
  | _, [] => true
  | [], _ :: _ => false
  | h :: hay, n :: needle => h == n && startsWith hay needle

/-- Search `needle` in `hay` from every start position, left to right. -/
def includesChars : List Char → List Char → Bool
  | [], needle => needle.isEmpty
  | h :: hay, needle => startsWith (h :: hay) needle || includesChars hay needle

/-- The method `String.prototype.includes` with one argument. -/
def includes (s term : String) : Bool :=
  includesChars s.data term.data

/-! ## Property access and `??` -/

/-- Own property lookup in a parsed object. -/
def ownProperty : List (String × JSValue) → String → Option JSValue
  | [], _ => none
  | (k, v) :: rest, key => if k == key then some v else ownProperty rest key

/-- The expression `v.key` for the property names the components read (`user`, `name`,
`title`, `results`): reading from `null` throws, reading from an object finds an own
property or `undefined`, and no prototype of a primitive or of an array defines these
names. -/
def getMember (v : JSValue) (key : String) : Except JSError (Option JSValue) :=
  match v with
  | .null => .error typeError
  | .object fields => .ok (ownProperty fields key)
  | _ => .ok none

/-- The expression `v?.key`: `undefined` when `v` is `null`, else `v.key`. -/
def optionalMember (v : JSValue) (key : String) : Option JSValue :=
  match v with
  | .null => none
  | .object fields => ownProperty fields key
  | _ => none

/-- Is the value `null` or `undefined`, the test made by `??`? -/
def nullish : Option JSValue → Bool
  | none => true
  | some .null => true
  | some _ => false

/-- The expression `a ?? b` with a defined right operand. -/
def coalesce (a : Option JSValue) (b : JSValue) : JSValue :=
  match a with
  | none => b
  | some .null => b
  | some v => v

/-- The predicate `Array.isArray`. -/
def isArray : JSValue → Bool
  | .array _ => true
  | _ => false

/-! ## `toString` -/

mutual
/-- The call `v.toString()`.  A parsed object that has an own `toString` entry shadows
`Object.prototype.toString` with a value that is not a function, so the call throws. -/
def toStringMethod : JSValue → Except JSError String
  | .null => .error typeError
  | .bool b => .ok (if b then "true" else "false")
  | .number shown => .ok shown
  | .string s => .ok s
  | .array items => joinItems items
  | .object fields =>
      if (ownProperty fields "toString").isSome then .error typeError
      else .ok "[object Object]"
/-- The method `Array.prototype.join` with the default separator: `null` items give the
empty text, other items are converted like `toStringMethod`. -/
def joinItems : List JSValue → Except JSError String
  | [] => .ok ""
  | .null :: rest =>
      match rest with
      | [] => .ok ""
      | _ :: _ => (joinItems rest).map (fun tail => "," ++ tail)
  | item :: rest =>
      match toStringMethod item with
      | .error e => .error e
      | .ok head =>
          match rest with
          | [] => .ok head
          | _ :: _ => (joinItems rest).map (fun tail => head ++ "," ++ tail)
end

/-! ## Normalisation of the payload (`fetchData`, line 28) -/

/-- The expression `Array.isArray(payload) ? payload : payload?.results ?? []`. -/
def normalize (payload : JSValue) : JSValue :=
  if isArray payload then payload
  else coalesce (optionalMember payload "results") (.array [])

/-! ## The filtered view (`useMemo`, lines 47-53) -/

/-- The expression `entry.user ?? entry.name ?? ''` of Leaderboard.js. -/
def Leaderboard.filterKey (entry : JSValue) : Except JSError JSValue := do
  let user ← getMember entry "user"
  if nullish user then
    let name ← getMember entry "name"
    pure (coalesce name (.string ""))
  else
    pure (coalesce user (.string ""))

/-- The expression `team.name ?? ''` of Teams.js. -/
def Teams.filterKey (team : JSValue) : Except JSError JSValue := do
  let name ← getMember team "name"
  pure (coalesce name (.string ""))

/-- The expression `workout.name ?? workout.title ?? ''` of Workouts.js. -/
def Workouts.filterKey (workout : JSValue) : Except JSError JSValue := do
  let name ← getMember workout "name"
  if nullish name then
    let title ← getMember workout "title"
    pure (coalesce title (.string ""))
  else
    pure (coalesce name (.string ""))

/-- The filter key expression of a component. -/
def filterKey : Component → JSValue → Except JSError JSValue
  | .leaderboard => Leaderboard.filterKey
  | .teams => Teams.filterKey
  | .workouts => Workouts.filterKey

/-- The callback given to `filter`:
`(entry) => (key).toString().toLowerCase().includes(term)`. -/
def matchesTerm (m : CaseMapping) (c : Component) (term : String) (entry : JSValue) :
    Except JSError Bool := do
  let key ← filterKey c entry
  let text ← toStringMethod key
  pure (includes (toLowerCase m text) term)

/-- The method `Array.prototype.filter`: the callback runs on the items from left to
right and the first exception it throws ends the call. -/
def arrayFilter (callback : JSValue → Except JSError Bool) :
    List JSValue → Except JSError (List JSValue)
  | [] => .ok []
  | item :: rest =>
      match callback item with
      | .error e => .error e
      | .ok keep =>
          match arrayFilter callback rest with
          | .error e => .error e
          | .ok kept => .ok (if keep then item :: kept else kept)

/-- The body of the `useMemo` that computes the filtered view.  `entries` is whatever
the state cell holds; calling `.filter` on a value that is not an array throws. -/
def filtered (m : CaseMapping) (c : Component) (entries : JSValue) (filter : String) :
    Except JSError JSValue :=
  let term := toLowerCase m (trim filter)
  if term.data.isEmpty then .ok entries
  else
    match entries with
    | .array items => (arrayFilter (matchesTerm m c term) items).map JSValue.array
    | _ => .error typeError

/-- The memo `filteredEntries` of Leaderboard.js. -/
def filteredEntries (m : CaseMapping) (entries : JSValue) (filter : String) :
    Except JSError JSValue :=
  filtered m .leaderboard entries filter

/-- The memo `filteredTeams` of Teams.js. -/
def filteredTeams (m : CaseMapping) (teams : JSValue) (filter : String) :
    Except JSError JSValue :=
  filtered m .teams teams filter

/-- The memo `filteredWorkouts` of Workouts.js. -/
def filteredWorkouts (m : CaseMapping) (workouts : JSValue) (filter : String) :
    Except JSError JSValue :=
  filtered m .workouts workouts filter

/-! ## Component state (`useState`, lines 4-7) -/

/-- The four `useState` cells of a component: the loaded list (`entries`, `teams` or
`workouts`), `loading`, `error` and `filter`. -/
structure Hooks where
  entries : JSValue
  loading : Bool
  error : Option String
  filter : String

/-- The initial values given to `useState`. -/
def initialHooks : Hooks :=
  { entries := .array [], loading := true, error := none, filter := "" }

/-- The setter `setEntries` / `setTeams` / `setWorkouts`. -/
def setEntries (v : JSValue) (h : Hooks) : Hooks := { h with entries := v }

/-- The setter `setLoading`. -/
def setLoading (b : Bool) (h : Hooks) : Hooks := { h with loading := b }

/-- The setter `setError`. -/
def setError (e : Option String) (h : Hooks) : Hooks := { h with error := e }

/-- The setter `setFilter`. -/
def setFilter (text : String) (h : Hooks) : Hooks := { h with filter := text }

/-! ## Endpoint and messages -/

/-- Last path segment of the endpoint of a component. -/
def resourcePath : Component → String
  | .leaderboard => "leaderboard"
  | .teams => "teams"
  | .workouts => "workouts"

/-- The memo `endpoint`; `codespace` is `process.env.REACT_APP_CODESPACE_NAME`, `none`
when the variable is unset.  An empty string is falsy. -/
def endpoint (c : Component) (codespace : Option String) : String :=
  match codespace with
  | none => ""
  | some name =>
      if name.data.isEmpty then ""
      else "https://" ++ name ++ "-8000.app.github.dev/api/" ++ resourcePath c ++ "/"

/-- Message set when the endpoint is the empty string. -/
def configMissingMessage : String :=
  "Backend host not configured. Set REACT_APP_CODESPACE_NAME."

/-- Message set by the `catch` block of a component. -/
def failedMessage : Component → String
  | .leaderboard => "Failed to load leaderboard."
  | .teams => "Failed to load teams."
  | .workouts => "Failed to load workouts."

/-! ## The asynchronous part of `fetchData` (lines 24-37) -/

/-- How a block of statements completes. -/
inductive Completion where
  | normal
  | returned
  | thrown (e : JSError)
deriving DecidableEq, Repr

/-- A block of statements acting on the state cells. -/
abbrev Block := Hooks → Hooks × Completion

/-- The statement `try body catch (err) handler finally finalizer`: the handler runs when
the body throws, the finalizer runs in every case, and the completion of the whole is
that of the finalizer when it is abrupt, else that of the body or handler. -/
def tryCatchFinally (body : Block) (handler : JSError → Block) (finalizer : Block) : Block :=
  fun h =>
    let afterBody := body h
    let afterCatch :=
      match afterBody.2 with
      | .thrown e => handler e afterBody.1
      | _ => afterBody
    let afterFinally := finalizer afterCatch.1
    match afterFinally.2 with
    | .normal => (afterFinally.1, afterCatch.2)
    | abrupt => (afterFinally.1, abrupt)

/-- The `try` block, resumed with what the two `await`s deliver: the parsed payload, or
the reason with which `fetch` or `response.json()` rejected. -/
def tryBlock (outcome : Except JSError JSValue) : Block :=
  fun h =>
    match outcome with
    | .error reason => (h, .thrown reason)
    | .ok payload =>
        let normalized := normalize payload
        (setError none (setEntries normalized h), .normal)

/-- The `catch` block. -/
def catchBlock (c : Component) (err : JSError) : Block :=
  fun h =>
    if err.name == "AbortError" then (h, .returned)
    else (setError (some (failedMessage c)) h, .normal)

/-- The `finally` block. -/
def finallyBlock : Block :=
  fun h => (setLoading false h, .normal)

/-- The body of the async arrow function from its first `await` on.  The promise of the
arrow function rejects exactly when the completion is `thrown`. -/
def resume (c : Component) (outcome : Except JSError JSValue) : Block :=
  tryCatchFinally (tryBlock outcome) (catchBlock c) finallyBlock

/-! ## Requests, `fetchData` (lines 14-40) and the effect (lines 42-45) -/

/-- A request issued by `fetch` and not yet settled, with the identity of the
`AbortController` whose signal it was given and the `aborted` flag of that signal. -/
structure Request where
  controller : Nat
  aborted : Bool
deriving DecidableEq, Repr

/-- A component and its surroundings: the state cells, the unsettled requests (newest
first), the number of controllers created so far, the controller captured by the
cleanup function of the effect, and whether the component is still mounted. -/
structure World where
  hooks : Hooks
  inflight : List Request
  controllers : Nat
  effectController : Option Nat
  mounted : Bool

/-- The callback `fetchData`, up to the `return controller`; `ep` is the endpoint.  The
result is the new world and the controller it returns. -/
def fetchData (ep : String) (w : World) : World × Nat :=
  let controller := w.controllers
  let w1 := { w with controllers := w.controllers + 1, hooks := setLoading true w.hooks }
  if ep.data.isEmpty then
    ({ w1 with hooks := setLoading false (setError (some configMissingMessage) w1.hooks) },
      controller)
  else
    ({ w1 with inflight := { controller := controller, aborted := false } :: w1.inflight },
      controller)

/-- The call `controller.abort()`. -/
def abort (controller : Nat) (w : World) : World :=
  let mark := fun (r : Request) =>
    if r.controller == controller then { r with aborted := true } else r
  { w with inflight := w.inflight.map mark }

/-- The component after its first render, before the effect. -/
def firstRender : World :=
  { hooks := initialHooks, inflight := [], controllers := 0, effectController := none,
    mounted := true }

/-- The setup of the effect: `fetchData()` is called and its controller is kept for the
cleanup. -/
def runEffect (ep : String) (w : World) : World :=
  let started := fetchData ep w
  { started.1 with effectController := some started.2 }

/-- The cleanup `() => controller.abort()` of the effect. -/
def cleanup (w : World) : World :=
  match w.effectController with
  | some controller => abort controller w
  | none => w

/-- First render followed by the effect. -/
def mount (ep : String) : World :=
  runEffect ep firstRender

/-- The mount under `React.StrictMode` in development: React sets the effect up, cleans it
up and sets it up again before anything else happens. -/
def strictMount (ep : String) : World :=
  runEffect ep (cleanup (mount ep))

/-- Settlement of the request of `controller`: an aborted request rejects with an
`AbortError`, any other delivers `response`; the async function then runs to its end.
`none` when the controller has no unsettled request. -/
def settle (c : Component) (controller : Nat) (response : Except JSError JSValue)
    (w : World) : Option World :=
  match w.inflight.find? (fun r => r.controller == controller) with
  | none => none
  | some r =>
      let outcome := if r.aborted then .error abortError else response
      some { w with
        hooks := (resume c outcome w.hooks).1,
        inflight := w.inflight.filter (fun r => r.controller != controller) }

/-- What can happen to a component after its mount.  The effect depends on `fetchData`
alone, which depends on the memoised `endpoint` alone, so no later render runs the
effect again; its cleanup is the only caller of `abort`. -/
inductive Event where
  | click
  | typed (text : String)
  | settled (controller : Nat) (response : Except JSError JSValue)
  | unmounted

/-- One event.  The Refresh button carries `disabled=\x7bloading\x7d`, so a click reaches
`fetchData` only while `loading` is false; the controller it returns is dropped.  The
button and the filter input exist while the component is mounted; the unmount runs the
cleanup of the effect.  A settlement runs the async function whether or not the
component is still mounted, and `hooks` records what its setter calls establish. -/
def step (c : Component) (ep : String) (w : World) : Event → Option World
  | .click =>
      if w.mounted && !w.hooks.loading then some (fetchData ep w).1 else none
  | .typed text =>
      if w.mounted then some { w with hooks := setFilter text w.hooks } else none
  | .settled controller response => settle c controller response w
  | .unmounted =>
      if w.mounted then some { cleanup w with mounted := false } else none

/-- Run a sequence of events, stopping with `none` at one that cannot happen. -/
def run (c : Component) (ep : String) : World → List Event → Option World
  | w, [] => some w
  | w, ev :: rest =>
      match step c ep w ev with
      | none => none
      | some w1 => run c ep w1 rest

/-- States reached from `w0` through events. -/
inductive ReachableFrom (c : Component) (ep : String) (w0 : World) : World → Prop where
  | start : ReachableFrom c ep w0 w0
  | next (w w1 : World) (ev : Event) :
      ReachableFrom c ep w0 w → step c ep w ev = some w1 → ReachableFrom c ep w0 w1

/-- States a component reaches: from its mount, or from its mount under StrictMode. -/
def Reachable (c : Component) (ep : String) (w : World) : Prop :=
  ReachableFrom c ep (mount ep) w ∨ ReachableFrom c ep (strictMount ep) w

/-! ## Specification side -/

/-- Spec: the fields that make up the filter key, in order of preference
(Leaderboard: user, else name; Teams: name; Workouts: name, else title). -/
def keyFields : Component → List String
  | .leaderboard => ["user", "name"]
  | .teams => ["name"]
  | .workouts => ["name", "title"]

/-- Spec: the value of the first listed field that the entity has with a value other
than `null`, else the empty string. -/
def firstPresent : List String → JSValue → JSValue
  | [], _ => .string ""
  | field :: others, entity =>
      match optionalMember entity field with
      | some .null => firstPresent others entity
      | some v => v
      | none => firstPresent others entity

/-- Spec: the filter key of an entity. -/
def specKey (c : Component) (entity : JSValue) : JSValue :=
  firstPresent (keyFields c) entity

/-- Spec: the entity is kept when its filter key, converted to a string and lower-cased,
contains `t` as a contiguous run of characters. -/
def specMatches (m : CaseMapping) (c : Component) (t : String) (entity : JSValue) : Bool :=
  match toStringMethod (specKey c entity) with
  | .ok text => decide (t.data <:+: (toLowerCase m text).data)
  | .error _ => false

mutual
/-- Values with a string form: primitives, arrays of such values, and objects without an
own `toString` entry. -/
def hasStringForm : JSValue → Bool
  | .array items => allHaveStringForm items
  | .object fields => (ownProperty fields "toString").isNone
  | _ => true
/-- Every item of the list has a string form. -/
def allHaveStringForm : List JSValue → Bool
  | [] => true
  | item :: rest => hasStringForm item && allHaveStringForm rest
end

/-- Is the value something other than `null`? -/
def notNull : JSValue → Bool
  | .null => false
  | _ => true

/-- An element the filter callback can read: it is not `null`, and its filter key has a
string form. -/
def readable (c : Component) (entry : JSValue) : Bool :=
  notNull entry && hasStringForm (specKey c entry)

/-- The filter consists of white space only (the empty filter included). -/
def blank (filter : String) : Prop :=
  ∀ ch ∈ filter.data, isWhiteSpace ch = true

/-! ## Sample data -/

/-- Case tables that agree with Unicode on the code points up to U+00FF (Basic Latin and
Latin-1 Supplement): `A`-`Z` and `À`-`Þ` without `×` move up by 32, every other
character of that range is its own lower-case form.  They serve to evaluate examples
whose characters lie in that range. -/
def latin1 : CaseMapping where
  lowerAt := fun _ ch _ =>
    let n := ch.toNat
    if (0x41 ≤ n && n ≤ 0x5A) || (0xC0 ≤ n && n ≤ 0xDE && n != 0xD7) then
      [Char.ofNat (n + 32)]
    else [ch]

/-- The Teams endpoint for the codespace named `demo`. -/
def demoEndpoint : String :=
  endpoint .teams (some "demo")

/-- The Teams component after its mount with `demoEndpoint` and a first attempt that
failed on the network. -/
def afterFailure : World :=
  { hooks := { entries := .array [], loading := false,
               error := some "Failed to load teams.", filter := "" },
    inflight := [], controllers := 1, effectController := some 0, mounted := true }

/-- The state `afterFailure` followed by a click on Refresh. -/
def afterRetry : World :=
  { hooks := { entries := .array [], loading := true,
               error := some "Failed to load teams.", filter := "" },
    inflight := [{ controller := 1, aborted := false }], controllers := 2,
    effectController := some 0, mounted := true }

/-- The Teams component after its mount under StrictMode, the settlement of the request
that the cleanup aborted, and a click on Refresh. -/
def overlapped : World :=
  { hooks := { entries := .array [], loading := true, error := none, filter := "" },
    inflight := [{ controller := 2, aborted := false }, { controller := 1, aborted := false }],
    controllers := 3, effectController := some 1, mounted := true }

/-! ## Lemmas on the string built-ins -/

theorem startsWith_iff (hay needle : List Char) :
    startsWith hay needle = true ↔ ∃ post, hay = needle ++ post := by
  induction needle generalizing hay with
  | nil => simp [startsWith]
  | cons n needle ih =>
    cases hay with
    | nil => simp [startsWith]
    | cons h hay =>
      simp only [startsWith, Bool.and_eq_true, beq_iff_eq, ih, List.cons_append,
        List.cons.injEq]
      constructor
      · rintro ⟨rfl, post, rfl⟩
        exact ⟨post, rfl, rfl⟩
      · rintro ⟨post, rfl, rfl⟩
        exact ⟨rfl, post, rfl⟩

theorem includesChars_iff (hay needle : List Char) :
    includesChars hay needle = true ↔ ∃ pre post, hay = pre ++ needle ++ post := by
  induction hay with
  | nil =>
    simp only [includesChars, List.isEmpty_iff]
    constructor
    · rintro rfl
      exact ⟨[], [], rfl⟩
    · rintro ⟨pre, post, h⟩
      have h1 := congrArg List.length h
      simp only [List.length_nil, List.length_append] at h1
      exact List.length_eq_zero.mp (by omega)
  | cons h hay ih =>
    simp only [includesChars, Bool.or_eq_true, startsWith_iff, ih]
    constructor
    · rintro (⟨post, hp⟩ | ⟨pre, post, hp⟩)
      · exact ⟨[], post, by simpa using hp⟩
      · exact ⟨h :: pre, post, by simp [hp]⟩
    · rintro ⟨pre, post, hp⟩
      cases pre with
      | nil => exact Or.inl ⟨post, by simpa using hp⟩
      | cons p pre =>
        simp only [List.cons_append, List.cons.injEq] at hp
        exact Or.inr ⟨pre, post, hp.2⟩

theorem includes_eq_decide (s term : String) :
    includes s term = decide (term.data <:+: s.data) := by
  rw [Bool.eq_iff_iff, decide_eq_true_iff]
  unfold includes
  rw [includesChars_iff]
  constructor
  · rintro ⟨pre, post, h⟩
    exact ⟨pre, post, h.symm⟩
  · rintro ⟨pre, post, h⟩
    exact ⟨pre, post, h.symm⟩

theorem trimStart_blank (cs : List Char) (h : ∀ ch ∈ cs, isWhiteSpace ch = true) :
    trimStart cs = [] := by
  induction cs with
  | nil => rfl
  | cons ch cs ih =>
    have hc : isWhiteSpace ch = true := h ch (List.mem_cons_self _ _)
    have ht : trimStart cs = [] := ih (fun x hx => h x (List.mem_cons_of_mem _ hx))
    simpa [trimStart, List.dropWhile, hc] using ht

theorem trim_blank (m : CaseMapping) (filter : String) (h : blank filter) :
    toLowerCase m (trim filter) = "" := by
  have h1 : trimChars filter.data = [] := by
    unfold trimChars
    rw [trimStart_blank filter.data h]
    rfl
  unfold toLowerCase trim
  simp only [h1, lowerFrom]

/-! ## Lemmas on `toString`, the filter key and `filter` -/

mutual
theorem toStringMethod_defined : ∀ v : JSValue, hasStringForm v = true → notNull v = true →
    ∃ text, toStringMethod v = .ok text
  | .null, _, hn => by simp [notNull] at hn
  | .bool b, _, _ => ⟨if b then "true" else "false", by simp [toStringMethod]⟩
  | .number shown, _, _ => ⟨shown, by simp [toStringMethod]⟩
  | .string s, _, _ => ⟨s, by simp [toStringMethod]⟩
  | .array items, hs, _ => by
      simp only [hasStringForm] at hs
      obtain ⟨text, ht⟩ := joinItems_defined items hs
      exact ⟨text, by simp [toStringMethod, ht]⟩
  | .object fields, hs, _ => by
      simp only [hasStringForm, Option.isNone_iff_eq_none] at hs
      exact ⟨"[object Object]", by simp [toStringMethod, hs]⟩
theorem joinItems_defined : ∀ items : List JSValue, allHaveStringForm items = true →
    ∃ text, joinItems items = .ok text
  | [], _ => ⟨"", by simp [joinItems]⟩
  | item :: rest, hs => by
      simp only [allHaveStringForm, Bool.and_eq_true] at hs
      obtain ⟨tail, ht⟩ := joinItems_defined rest hs.2
      cases item with
      | null =>
        cases rest with
        | nil => exact ⟨"", by simp [joinItems]⟩
        | cons r rs => exact ⟨"," ++ tail, by simp [joinItems, ht, Except.map]⟩
      | bool b =>
        obtain ⟨head, hh⟩ := toStringMethod_defined (.bool b) hs.1 rfl
        cases rest with
        | nil => exact ⟨head, by simp [joinItems, hh]⟩
        | cons r rs => exact ⟨head ++ "," ++ tail, by simp [joinItems, hh, ht, Except.map]⟩
      | number n =>
        obtain ⟨head, hh⟩ := toStringMethod_defined (.number n) hs.1 rfl
        cases rest with
        | nil => exact ⟨head, by simp [joinItems, hh]⟩
        | cons r rs => exact ⟨head ++ "," ++ tail, by simp [joinItems, hh, ht, Except.map]⟩
      | string n =>
        obtain ⟨head, hh⟩ := toStringMethod_defined (.string n) hs.1 rfl
        cases rest with
        | nil => exact ⟨head, by simp [joinItems, hh]⟩
        | cons r rs => exact ⟨head ++ "," ++ tail, by simp [joinItems, hh, ht, Except.map]⟩
      | array n =>
        obtain ⟨head, hh⟩ := toStringMethod_defined (.array n) hs.1 rfl
        cases rest with
        | nil => exact ⟨head, by simp [joinItems, hh]⟩
        | cons r rs => exact ⟨head ++ "," ++ tail, by simp [joinItems, hh, ht, Except.map]⟩
      | object n =>
        obtain ⟨head, hh⟩ := toStringMethod_defined (.object n) hs.1 rfl
        cases rest with
        | nil => exact ⟨head, by simp [joinItems, hh]⟩
        | cons r rs => exact ⟨head ++ "," ++ tail, by simp [joinItems, hh, ht, Except.map]⟩
end

theorem getMember_notNull (v : JSValue) (key : String) (h : notNull v = true) :
    getMember v key = .ok (optionalMember v key) := by
  cases v <;> simp [notNull, getMember, optionalMember] at h ⊢

theorem specKey_notNull (c : Component) (entry : JSValue) :
    notNull (specKey c entry) = true := by
  have key : ∀ fields, notNull (firstPresent fields entry) = true := by
    intro fields
    induction fields with
    | nil => rfl
    | cons f fs ih =>
      unfold firstPresent
      split
      · exact ih
      · rename_i v hv _
        cases v <;> simp_all [notNull]
      · exact ih
  exact key _

theorem filterKey_eq_specKey (c : Component) (entry : JSValue) (h : notNull entry = true) :
    filterKey c entry = .ok (specKey c entry) := by
  cases c
  · simp only [filterKey, Leaderboard.filterKey, getMember_notNull entry _ h, specKey,
      keyFields, firstPresent]
    cases hu : optionalMember entry "user" with
    | none =>
      cases hn : optionalMember entry "name" with
      | none => rfl
      | some n => cases n <;> rfl
    | some u =>
      cases u <;> first
        | rfl
        | (cases hn : optionalMember entry "name" with
            | none => rfl
            | some n => cases n <;> rfl)
  · simp only [filterKey, Teams.filterKey, getMember_notNull entry _ h, specKey,
      keyFields, firstPresent]
    cases hn : optionalMember entry "name" with
    | none => rfl
    | some n => cases n <;> rfl
  · simp only [filterKey, Workouts.filterKey, getMember_notNull entry _ h, specKey,
      keyFields, firstPresent]
    cases hu : optionalMember entry "name" with
    | none =>
      cases hn : optionalMember entry "title" with
      | none => rfl
      | some n => cases n <;> rfl
    | some u =>
      cases u <;> first
        | rfl
        | (cases hn : optionalMember entry "title" with
            | none => rfl
            | some n => cases n <;> rfl)

theorem matchesTerm_eq_specMatches (m : CaseMapping) (c : Component) (term : String)
    (entry : JSValue) (h : readable c entry = true) :
    matchesTerm m c term entry = .ok (specMatches m c term entry) := by
  simp only [readable, Bool.and_eq_true] at h
  obtain ⟨text, ht⟩ := toStringMethod_defined (specKey c entry) h.2 (specKey_notNull c entry)
  unfold matchesTerm specMatches
  rw [filterKey_eq_specKey c entry h.1, ht]
  simp only [bind, Except.bind, ht, pure, Except.pure, includes_eq_decide]

theorem arrayFilter_eq_filter (callback : JSValue → Except JSError Bool)
    (keep : JSValue → Bool) (items : List JSValue)
    (h : ∀ item ∈ items, callback item = .ok (keep item)) :
    arrayFilter callback items = .ok (items.filter keep) := by
  induction items with
  | nil => rfl
  | cons item rest ih =>
    have h1 := h item (List.mem_cons_self _ _)
    have h2 := ih (fun x hx => h x (List.mem_cons_of_mem _ hx))
    simp only [arrayFilter, h1, h2, List.filter_cons]

theorem term_nonempty (term : String) (h : term ≠ "") : term.data.isEmpty = false := by
  cases term with
  | mk data =>
    cases data with
    | nil => exact absurd rfl h
    | cons ch rest => rfl

theorem filtered_of_readable (m : CaseMapping) (c : Component) (entries : List JSValue) (filter : String)
    (hread : ∀ e ∈ entries, readable c e = true) :
    filtered m c (.array entries) filter = .ok (.array entries) ∨
    filtered m c (.array entries) filter
      = .ok (.array (entries.filter (specMatches m c (toLowerCase m (trim filter))))) := by
  unfold filtered
  by_cases hempty : (toLowerCase m (trim filter)).data.isEmpty = true
  · left
    simp [hempty]
  · right
    simp only [hempty, Bool.false_eq_true, if_false]
    rw [arrayFilter_eq_filter _ (specMatches m c (toLowerCase m (trim filter))) entries
      (fun e he => matchesTerm_eq_specMatches m c _ e (hread e he))]
    rfl

theorem reachable_run (c : Component) (ep : String) (w0 : World) (events : List Event) :
    ∀ w w1 : World, ReachableFrom c ep w0 w → run c ep w events = some w1 →
      ReachableFrom c ep w0 w1 := by
  induction events with
  | nil =>
    intro w w1 hw hrun
    simp only [run, Option.some.injEq] at hrun
    exact hrun ▸ hw
  | cons ev rest ih =>
    intro w w1 hw hrun
    simp only [run] at hrun
    cases hstep : step c ep w ev with
    | none => simp [hstep] at hrun
    | some w2 =>
      simp only [hstep] at hrun
      exact ih w2 w1 (ReachableFrom.next w w2 ev hw hstep) hrun

theorem fetchData_inflight (ep : String) (w : World) (hep : ep ≠ "") :
    (fetchData ep w).1.inflight
      = { controller := w.controllers, aborted := false } :: w.inflight := by
  simp [fetchData, term_nonempty ep hep]

theorem fetchData_gate (ep : String) (w : World) (hnone : w.inflight = []) :
    (fetchData ep w).1.inflight.length ≤ 1 ∧
    ((fetchData ep w).1.inflight ≠ [] → (fetchData ep w).1.hooks.loading = true) := by
  unfold fetchData
  by_cases hempty : ep.data.isEmpty = true
  · simp [hempty, hnone]
  · simp [hempty, hnone, setLoading]

theorem settle_inflight (c : Component) (controller : Nat)
    (response : Except JSError JSValue) (w w1 : World) (hlen : w.inflight.length ≤ 1)
    (hset : settle c controller response w = some w1) : w1.inflight = [] := by
  unfold settle at hset
  cases hw : w.inflight with
  | nil => simp [hw] at hset
  | cons r rest =>
    have hrest : rest = [] := by
      rw [hw] at hlen
      simp only [List.length_cons] at hlen
      exact List.length_eq_zero.mp (by omega)
    subst hrest
    rw [hw] at hset
    by_cases hr : (r.controller == controller) = true
    · simp only [List.find?, hr, Option.some.injEq] at hset
      rw [← hset]
      have hne : (r.controller != controller) = false := by
        simp only [bne, hr, Bool.not_true]
      simp only [List.filter, hne]
    · simp [List.find?, hr] at hset

theorem inflight_invariant (c : Component) (ep : String) (w : World)
    (hreach : ReachableFrom c ep (mount ep) w) :
    w.inflight.length ≤ 1 ∧ (w.inflight ≠ [] → w.hooks.loading = true) := by
  induction hreach with
  | start => exact fetchData_gate ep firstRender rfl
  | next w w1 ev _ hstep ih =>
    cases ev with
    | click =>
      simp only [step] at hstep
      by_cases hl : (w.mounted && !w.hooks.loading) = true
      · simp only [hl, if_true, Option.some.injEq] at hstep
        simp only [Bool.and_eq_true, Bool.not_eq_true_eq_eq_false] at hl
        have hnone : w.inflight = [] := by
          by_contra hne
          have := ih.2 hne
          simp [hl.2] at this
        rw [← hstep]
        exact fetchData_gate ep w hnone
      · simp [hl] at hstep
    | typed text =>
      simp only [step] at hstep
      by_cases hm : w.mounted = true
      · simp only [hm, if_true, Option.some.injEq] at hstep
        rw [← hstep]
        exact ih
      · simp [hm] at hstep
    | settled controller response =>
      simp only [step] at hstep
      have hnil := settle_inflight c controller response w w1 ih.1 hstep
      simp [hnil]
    | unmounted =>
      simp only [step] at hstep
      by_cases hm : w.mounted = true
      · simp only [hm, if_true, Option.some.injEq] at hstep
        rw [← hstep]
        unfold cleanup
        cases w.effectController with
        | none => exact ih
        | some controller =>
          simp only [abort, List.length_map, ne_eq, List.map_eq_nil_iff]
          exact ih
      · simp [hm] at hstep

theorem normalize_defaults :
    normalize .null = .array [] ∧
    (∀ b, normalize (.bool b) = .array []) ∧
    (∀ shown, normalize (.number shown) = .array []) ∧
    (∀ text, normalize (.string text) = .array []) ∧
    (∀ fields, ownProperty fields "results" = none → normalize (.object fields) = .array []) ∧
    (∀ fields, ownProperty fields "results" = some .null →
      normalize (.object fields) = .array []) := by
  refine ⟨rfl, fun _ => rfl, fun _ => rfl, fun _ => rfl, fun fields h => ?_, fun fields h => ?_⟩
  · simp [normalize, isArray, optionalMember, h, coalesce]
  · simp [normalize, isArray, optionalMember, h, coalesce]

theorem normalize_unexpected_shape :
    normalize (.object [("unexpected", .string "shape")]) = .array [] ∧
    (resume .teams (.ok (.object [("unexpected", .string "shape")])) initialHooks)
      = ({ entries := .array [], loading := false, error := none, filter := "" }, .normal) :=
  ⟨rfl, rfl⟩

theorem filtered_throws_on_non_array (m : CaseMapping) (c : Component) (filter : String)
    (hterm : toLowerCase m (trim filter) ≠ "") :
    filtered m c (.string "oops") filter = .error typeError := by
  unfold filtered
  simp only [term_nonempty _ hterm, Bool.false_eq_true, if_false]

theorem endpoint_configured (c : Component) (name : String) (hname : name ≠ "") :
    endpoint c (some name) ≠ "" := by
  have hdata : name.data.isEmpty = false := term_nonempty name hname
  unfold endpoint
  simp only [hdata, Bool.false_eq_true, if_false]
  intro h
  have hlen := congrArg String.length h
  simp only [String.length_append] at hlen
  have hslash : "/".length = 1 := by decide
  have hzero : "".length = 0 := by decide
  omega

theorem filtered_folds_latin1 :
    toLowerCase latin1 "Équipe Bleue" = "équipe bleue" ∧
    filteredTeams latin1
        (.array [.object [("name", .string "Équipe Bleue")],
                 .object [("name", .string "Rouge")]]) "é"
      = .ok (.array [.object [("name", .string "Équipe Bleue")]]) :=
  ⟨by decide, rfl⟩

/-! ## The claims -/

/-- C1, counterexample: a team whose `name` is an object with an own `toString` entry
is an entity, the term of the filter "a" is not empty, and the filtered view is not
computed: the callback throws a TypeError at `.toString()`. -/
theorem filtered_throws_on_shadowed_toString :
    toLowerCase latin1 (trim "a") = "a" ∧
    filteredTeams latin1 (.array [.object [("name", .object [("toString", .number "1")])]]) "a"
      = .error typeError :=
  ⟨by decide, rfl⟩

/-- C1, amended: in each component, when the trimmed, lower-cased filter `t` is not empty
and every element of the loaded list is not `null` and has a filter key with a string
form, the filtered view is the list of those elements whose filter key (Leaderboard:
user, else name, else the empty string; Teams: name; Workouts: name, else title),
converted to a string and lower-cased, contains `t`, in their original order, and is
therefore a sub-sequence of the loaded list. -/
theorem filtered_is_matching_sublist (m : CaseMapping) (c : Component) (entries : List JSValue)
    (filter : String) (hread : ∀ e ∈ entries, readable c e = true)
    (hterm : toLowerCase m (trim filter) ≠ "") :
    filtered m c (.array entries) filter
      = .ok (.array (entries.filter (specMatches m c (toLowerCase m (trim filter)))))
    ∧ (entries.filter (specMatches m c (toLowerCase m (trim filter)))).Sublist entries := by
  refine ⟨?_, List.filter_sublist _⟩
  unfold filtered
  simp only [term_nonempty _ hterm, Bool.false_eq_true, if_false]
  rw [arrayFilter_eq_filter _ (specMatches m c (toLowerCase m (trim filter))) entries
    (fun e he => matchesTerm_eq_specMatches m c _ e (hread e he))]
  rfl

/-- C1, amended, at the example of the specification: the entries Ana and Bo with the filter
"an" give the entry Ana alone. -/
theorem filtered_is_matching_sublist_witness :
    filteredEntries latin1
        (.array [.object [("user", .string "Ana"), ("score", .number "10")],
                 .object [("user", .string "Bo"), ("score", .number "5")]]) "an"
      = .ok (.array [.object [("user", .string "Ana"), ("score", .number "10")]]) :=
  (filtered_is_matching_sublist latin1 .leaderboard
    [.object [("user", .string "Ana"), ("score", .number "10")],
     .object [("user", .string "Bo"), ("score", .number "5")]] "an"
    (by decide) (by decide)).1

/-- C2: in each component, a filter that is empty or made of white space only leaves the
loaded value as it is: the filtered view is the loaded list itself. -/
theorem filtered_blank_identity (m : CaseMapping) (c : Component) (entries : JSValue) (filter : String)
    (hblank : blank filter) :
    filtered m c entries filter = .ok entries := by
  unfold filtered
  simp [trim_blank m filter hblank]

/-- C2, at a filter of two spaces and a tab. -/
theorem filtered_blank_identity_witness :
    filteredTeams latin1 (.array [.object [("name", .string "Team A")], .null]) "  \t"
      = .ok (.array [.object [("name", .string "Team A")], .null]) :=
  filtered_blank_identity latin1 .teams _ "  \t" (by unfold blank; decide)

/-- C3: normalisation returns a bare array as it is, and returns the `results` array of
an object that has one. -/
theorem normalize_accepts_both_shapes :
    (∀ items : List JSValue, normalize (.array items) = .array items) ∧
    (∀ (fields : List (String × JSValue)) (items : List JSValue),
      ownProperty fields "results" = some (.array items) →
      normalize (.object fields) = .array items) := by
  refine ⟨fun items => rfl, fun fields items h => ?_⟩
  simp [normalize, isArray, optionalMember, h, coalesce]

/-- C3, at the payload with `results` holding the team "Team A". -/
theorem normalize_accepts_both_shapes_witness :
    normalize (.object [("results", .array [.object [("name", .string "Team A")]])])
      = .array [.object [("name", .string "Team A")]] :=
  normalize_accepts_both_shapes.2 _ _ rfl

/-- C4, failing input: for the payload whose `results` is the string "oops" the
normalised value is that string and not the empty list, and it is what the state cell
holds after the settlement, with no error and `loading` false. -/
theorem normalize_keeps_non_array_results :
    normalize (.object [("results", .string "oops")]) = .string "oops" ∧
    isArray (normalize (.object [("results", .string "oops")])) = false ∧
    (resume .leaderboard (.ok (.object [("results", .string "oops")])) initialHooks).1
      = { entries := .string "oops", loading := false, error := none, filter := "" } :=
  ⟨rfl, rfl, rfl⟩

/-- C5: when `fetch` or `response.json()` rejects with a reason other than an
`AbortError`, the async function sets the error to the failure message of the component
and `loading` to false, and completes normally, so its promise does not reject. -/
theorem failed_attempt_sets_error (c : Component) (reason : JSError) (h : Hooks)
    (hname : reason.name ≠ "AbortError") :
    resume c (.error reason) h
      = ({ h with error := some (failedMessage c), loading := false }, .normal) := by
  simp [resume, tryCatchFinally, tryBlock, catchBlock, finallyBlock, hname, setError,
    setLoading]

/-- C5, at a body that is not JSON, in the Workouts component after its mount. -/
theorem failed_attempt_sets_error_witness :
    resume .workouts (.error syntaxError) initialHooks
      = ({ entries := .array [], loading := false,
           error := some "Failed to load workouts.", filter := "" }, .normal) :=
  failed_attempt_sets_error .workouts syntaxError initialHooks (by decide)

/-- C6: when REACT_APP_CODESPACE_NAME is unset or empty, a call of `fetchData` issues no
request and leaves the error at the configuration message with `loading` false. -/
theorem unconfigured_fetchData (c : Component) (codespace : Option String) (w : World)
    (hunset : codespace = none ∨ codespace = some "") :
    endpoint c codespace = "" ∧
    (fetchData (endpoint c codespace) w).1.inflight = w.inflight ∧
    (fetchData (endpoint c codespace) w).1.hooks.error
      = some "Backend host not configured. Set REACT_APP_CODESPACE_NAME." ∧
    (fetchData (endpoint c codespace) w).1.hooks.loading = false := by
  rcases hunset with rfl | rfl <;> exact ⟨rfl, rfl, rfl, rfl⟩

/-- C6, at the mount of the Leaderboard component without the variable. -/
theorem unconfigured_fetchData_witness :
    (mount (endpoint .leaderboard none)).inflight = [] ∧
    (mount (endpoint .leaderboard none)).hooks.error
      = some "Backend host not configured. Set REACT_APP_CODESPACE_NAME." ∧
    (mount (endpoint .leaderboard none)).hooks.loading = false :=
  (unconfigured_fetchData .leaderboard none
    firstRender (Or.inl rfl)).2

/-- C7, failing input: the settlement of an aborted request returns from the `catch`
block, but the `finally` block still runs `setLoading(false)`.  After the mount and the
effect cleanup `loading` is true; after the settlement of the aborted request it is
false. -/
theorem aborted_settlement_clears_loading :
    (∀ (c : Component) (h : Hooks),
      resume c (.error abortError) h = (setLoading false h, .returned)) ∧
    (cleanup (mount demoEndpoint)).inflight = [{ controller := 0, aborted := true }] ∧
    (cleanup (mount demoEndpoint)).hooks.loading = true ∧
    (settle .teams 0 (.ok (.array [])) (cleanup (mount demoEndpoint))).map
        (fun w => w.hooks.loading)
      = some false :=
  ⟨fun _ _ => rfl, rfl, rfl, rfl⟩

/-- C8, failing input: the Teams component mounted under StrictMode.  The cleanup aborts
the first request before the second one starts; when the aborted request settles,
`loading` is set to false while the second request is unsettled, so the Refresh button
is enabled and a click starts a third request next to the second, neither aborted.
When the third response arrives first and the second one last, both are applied and the
list of the earlier call is the one that stays. -/
theorem refresh_overlaps_after_aborted_settlement :
    (strictMount demoEndpoint).inflight
      = [{ controller := 1, aborted := false }, { controller := 0, aborted := true }] ∧
    (run .teams demoEndpoint (strictMount demoEndpoint)
        [.settled 0 (.error abortError)]).map (fun w => (w.hooks.loading, w.inflight))
      = some (false, [{ controller := 1, aborted := false }]) ∧
    run .teams demoEndpoint (strictMount demoEndpoint)
        [.settled 0 (.error abortError), .click]
      = some overlapped ∧
    Reachable .teams demoEndpoint overlapped ∧
    (run .teams demoEndpoint overlapped
        [.settled 2 (.ok (.array [.string "later"])),
         .settled 1 (.ok (.array [.string "earlier"]))]).map (fun w => (w.hooks, w.inflight))
      = some ({ entries := .array [.string "earlier"], loading := false, error := none,
                filter := "" }, []) :=
  ⟨rfl, rfl, rfl,
    Or.inr (reachable_run .teams demoEndpoint _ [.settled 0 (.error abortError), .click]
      _ _ ReachableFrom.start rfl),
    rfl⟩

/-- C9, counterexample: in the Teams component a failed attempt followed by a click on
Refresh gives a reachable state with `loading` set and the error still set. -/
theorem loading_and_error_both_set :
    Reachable .teams demoEndpoint afterRetry ∧
    afterRetry.hooks.loading = true ∧
    afterRetry.hooks.error = some "Failed to load teams." :=
  ⟨Or.inl (reachable_run .teams demoEndpoint _ [.settled 0 (.error typeError), .click]
      _ _ ReachableFrom.start rfl),
    rfl, rfl⟩

/-- C9, amended: with a configured endpoint `fetchData` sets `loading` and leaves the
error and the loaded list as they were, so the state right after a refresh is without
error exactly when no error was set before; the settlement of a request that was not
cancelled, with a payload or with a failure, then sets `loading` to false. -/
theorem refresh_keeps_error (c : Component) (ep : String) (w : World) (hep : ep ≠ "") :
    (fetchData ep w).1.hooks.loading = true ∧
    (fetchData ep w).1.hooks.error = w.hooks.error ∧
    (fetchData ep w).1.hooks.entries = w.hooks.entries ∧
    (∀ payload, (resume c (.ok payload) (fetchData ep w).1.hooks).1.loading = false) ∧
    (∀ reason : JSError, reason.name ≠ "AbortError" →
      (resume c (.error reason) (fetchData ep w).1.hooks).1.loading = false) := by
  have hne : ep.data.isEmpty = false := term_nonempty ep hep
  refine ⟨?_, ?_, ?_, fun payload => rfl, fun reason hname => ?_⟩
  · simp [fetchData, hne, setLoading]
  · simp [fetchData, hne, setLoading]
  · simp [fetchData, hne, setLoading]
  · simp [resume, tryCatchFinally, tryBlock, catchBlock, finallyBlock, hname, setError,
      setLoading]

/-- C9, amended, at the Teams component after a failed attempt: the refresh sets
`loading` and the failure message stays. -/
theorem refresh_keeps_error_witness :
    (fetchData demoEndpoint afterFailure).1.hooks.loading = true ∧
    (fetchData demoEndpoint afterFailure).1.hooks.error = some "Failed to load teams." :=
  ⟨(refresh_keeps_error .teams demoEndpoint afterFailure (by decide)).1,
    (refresh_keeps_error .teams demoEndpoint afterFailure (by decide)).2.1⟩

/-- C10, counterexample: the payload `[null]` is stored as the loaded list, and with the
filter "a" the callback reads a property of `null` and throws a TypeError. -/
theorem filtered_throws_on_null_element :
    (resume .leaderboard (.ok (.array [.null])) initialHooks).1.entries = .array [.null] ∧
    filteredEntries latin1 (.array [.null]) "a" = .error typeError :=
  ⟨rfl, rfl⟩

/-- C10, amended: for a loaded array whose elements are not `null` and whose filter keys
have a string form, and for every filter, the filtered view is computed and is a
list. -/
theorem filtered_returns_list (m : CaseMapping) (c : Component) (entries : List JSValue) (filter : String)
    (hread : ∀ e ∈ entries, readable c e = true) :
    ∃ view : List JSValue, filtered m c (.array entries) filter = .ok (.array view) := by
  rcases filtered_of_readable m c entries filter hread with h | h
  · exact ⟨_, h⟩
  · exact ⟨_, h⟩

/-- C10, amended, at a list with an element that is no object and an entity whose key is
a boolean. -/
theorem filtered_returns_list_witness :
    ∃ view : List JSValue,
      filteredWorkouts latin1 (.array [.number "1", .object [("title", .bool true)]]) "TRUE"
        = .ok (.array view) :=
  filtered_returns_list latin1 .workouts [.number "1", .object [("title", .bool true)]] "TRUE"
    (by decide)

end OctoFit
